import Mathlib

/-!
Shallow embedding of `bulk_processor.py` (class `BulkProcessor`): the job
registry, the per-job worker `_process_job`, `create_job`, `get_job_status`
and `cleanup_old_jobs`, together with proofs of the specification claims.

Python timestamps are modelled as integers (`datetime.now()` as seconds since
an arbitrary epoch, `time.time() * 1000` as milliseconds); the fractional-hour
age computed by `cleanup_old_jobs` is modelled exactly in `ℚ`.  The external
effects of one loop iteration (`diagnose_site`,
`generate_technical_observation`, the unguarded save-preparation of lines
90-98 and the guarded JSON file write) are modelled as per-iteration outcome
parameters, since the worker only branches on whether each step succeeds or
raises.
-/

/-- Job status strings used by `bulk_processor.py`.  The source comment on
line 44 lists `queued, processing, completed, failed`; only the first three
are ever assigned. -/
inductive JobStatus where
  | queued
  | processing
  | completed
  | failed
deriving DecidableEq, Repr

/-- The diagnostic payload dict returned by `diagnose_site`, restricted to the
keys that `BulkProcessor._process_job` reads or writes.  All other payload
content is opaque to the worker. -/
structure DiagResult where
  vulnerability_detected : Bool
  technical_observation : Option String
  output_file : Option String
  saved : Option Bool
  save_error : Option String
deriving DecidableEq, Repr

/-- One element of `job['results']`: either a success record
`{'url': url, 'status': 'success', 'result': result}` or an error record
`{'url': url, 'status': 'error', 'error': error_msg}` (lines 112-116 and
126-130). -/
inductive ResultEntry where
  | success (url : String) (result : DiagResult)
  | error (url : String) (error : String)
deriving DecidableEq, Repr

/-- One element of `job['errors']`: `{'url': url, 'error': error_msg}`
(lines 133-136). -/
structure ErrEntry where
  url : String
  error : String
deriving DecidableEq, Repr

/-- The job record dict created by `create_job` (lines 36-50). -/
structure Job where
  job_id : String
  urls : List String
  total : Nat
  completed : Nat
  successful : Nat
  failed : Nat
  current_url : Option String
  status : JobStatus
  results : List ResultEntry
  errors : List ErrEntry
  started_at : Int
  completed_at : Option Int
  generate_observations : Bool
deriving DecidableEq, Repr

/-- Outcome of the external Diagnoser call `diagnose_site(url)` (line 79):
either a payload, or an arbitrary raised exception carrying its message. -/
inductive DiagOutcome where
  | ok (result : DiagResult)
  | exn (msg : String)
deriving DecidableEq, Repr

deriving instance DecidableEq for Except

/-- Outcomes of the external effects of one iteration of the worker loop:
`diag` for the Diagnoser (line 79); `obs` for `generate_technical_observation`
(line 84, which may return an observation, a falsy value modelled as `none`,
or raise); `prep` for the *unguarded* save-preparation code of lines 90-98
(the `urlparse`-based file-name derivation and `os.makedirs`), which on
success yields the computed file name and on failure raises out of the `try`
body into the outer `except` arm; and `save` for the guarded JSON file write
of lines 101-102. -/
structure UrlEnv where
  diag : DiagOutcome
  obs : Except String (Option String)
  prep : Except String String
  save : Except String Unit
deriving DecidableEq, Repr

/-- Lines 82-88: if observations were requested and the payload flags a
vulnerability, call the ObservationGenerator; a raised exception is caught and
swallowed, and a falsy return value is ignored, so in both cases the optional
`technical_observation` key is simply not set. -/
def applyObservation (gen : Bool) (r : DiagResult) (obsE : Except String (Option String)) :
    DiagResult :=
  if gen && r.vulnerability_detected then
    match obsE with
    | .ok (some o) => { r with technical_observation := some o }
    | .ok none => r
    | .error _ => r
  else r

/-- Lines 100-108: try to persist the payload to the already-computed file
`fname`.  On success the payload gains `output_file` and `saved = True`; a
raised exception is caught and the payload instead gains `saved = False` and
`save_error`. -/
def applySave (r : DiagResult) (fname : String) (saveE : Except String Unit) : DiagResult :=
  match saveE with
  | .ok _ => { r with output_file := some fname, saved := some true }
  | .error m => { r with saved := some false, save_error := some m }

/-- The `except` arm of the worker loop (lines 120-136): append an error
outcome `{url, error}` to `results` and to `errors`, increment `failed`, set
`completed = idx`.  It is reached by any exception raised inside the `try`
body. -/
def exceptArm (job : Job) (idx : Nat) (url : String) (m : String) : Job :=
  { job with
      results := job.results ++ [.error url m]
      failed := job.failed + 1
      completed := idx
      errors := job.errors ++ [ErrEntry.mk url m] }

/-- Lines 69-136, one iteration of the worker loop for the URL at (1-based)
position `idx`.  The `try` body first sets `current_url` and
`completed = idx - 1` (lines 72-74) and then runs the Diagnoser.  On success
it runs the guarded observation step, then the unguarded save-preparation of
lines 90-98 — whose exception, like a Diagnoser exception, lands in the
outer `except` arm — then the guarded file write, and appends a success
outcome (lines 111-118). -/
def processUrl (job : Job) (idx : Nat) (url : String) (e : UrlEnv) : Job :=
  let job := { job with current_url := some url, completed := idx - 1 }
  match e.diag with
  | .exn m => exceptArm job idx url m
  | .ok r =>
      let r := applyObservation job.generate_observations r e.obs
      match e.prep with
      | .error m => exceptArm job idx url m
      | .ok fname =>
          let r := applySave r fname e.save
          { job with
              results := job.results ++ [.success url r]
              successful := job.successful + 1
              completed := idx }

/-- The worker loop `for idx, url in enumerate(urls, 1)` (line 69), with `env`
giving the outcomes of the external calls made at each 1-based position. -/
def runUrls (job : Job) (urls : List String) (idx : Nat) (env : Nat → UrlEnv) : Job :=
  match urls with
  | [] => job
  | url :: rest => runUrls (processUrl job idx url (env idx)) rest (idx + 1) env

/-- `BulkProcessor._process_job` (lines 58-144) applied to an already
registered job record: mark it `processing` (line 64), run the loop over its
URL list, then unconditionally perform the terminal bookkeeping of lines
139-142 (`status = 'completed'`, `completed_at = now`, `current_url = None`),
with `t1` the completion clock reading. -/
def processJob (job0 : Job) (env : Nat → UrlEnv) (t1 : Int) : Job :=
  let job1 := { job0 with status := JobStatus.processing }
  let job2 := runUrls job1 job1.urls 1 env
  { job2 with
      status := JobStatus.completed
      completed_at := some t1
      current_url := none }

/-- The initial record stored by `create_job` (lines 36-50): status `queued`,
all counters zero, empty `results`/`errors`, `started_at` the creation clock
reading, `completed_at` unset. -/
def newJob (jid : String) (startedAt : Int) (urls : List String) (gen : Bool) : Job :=
  { job_id := jid
    urls := urls
    total := urls.length
    completed := 0
    successful := 0
    failed := 0
    current_url := none
    status := JobStatus.queued
    results := []
    errors := []
    started_at := startedAt
    completed_at := none
    generate_observations := gen }

/-- Line 33: `job_id = f"job_{int(time.time() * 1000)}"`, with `t_ms` the
current time in milliseconds; the f-string renders `t_ms` in decimal. -/
def mkJobId (t_ms : Nat) : String := "job_" ++ Nat.repr t_ms

/-- The registry `self.jobs`, a Python dict from job id to job record,
modelled as an insertion-ordered association list. -/
structure ProcState where
  jobs : List (String × Job)
deriving DecidableEq, Repr

/-- Python dict assignment `self.jobs[job_id] = record`: overwrite in place if
the key is present, otherwise append at the end. -/
def dictInsert (m : List (String × Job)) (k : String) (v : Job) : List (String × Job) :=
  if m.any (fun p => p.1 = k) then
    m.map (fun p => if p.1 = k then (k, v) else p)
  else
    m ++ [(k, v)]

/-- Python `self.jobs.get(job_id)` as a value lookup. -/
def lookupJob (m : List (String × Job)) (k : String) : Option Job :=
  (m.find? (fun p => p.1 = k)).map (·.2)

/-- `BulkProcessor.create_job` (lines 22-56): build the id from the
millisecond clock `t_ms`, register the initial record (no validation of
`urls` is performed), spawn the worker, and return the id.  The spawned
worker is modelled separately by `processJob`. -/
def create_job (s : ProcState) (t_ms : Nat) (clock : Int) (urls : List String) (gen : Bool) :
    ProcState × String :=
  let jid := mkJobId t_ms
  (⟨dictInsert s.jobs jid (newJob jid clock urls gen)⟩, jid)

/-- Line 168: `age_hours = (current_time - completed_at).total_seconds() / 3600`,
with both clock readings in seconds, computed exactly in `ℚ`. -/
def ageHours (now completedAt : Int) : ℚ := ((now - completedAt : Int) : ℚ) / 3600

/-- Lines 166-169: a record is scheduled for removal when its status is
`completed` and its age in hours strictly exceeds `max_age_hours`.  (Records
with status `completed` always carry a `completed_at` timestamp, so the
`none` branch is vacuous for reachable states.) -/
def shouldRemove (now : Int) (maxAge : Nat) (job : Job) : Bool :=
  if job.status = JobStatus.completed then
    match job.completed_at with
    | some t => decide (ageHours now t > (maxAge : ℚ))
    | none => false
  else false

/-- Lines 172-173: `for job_id in jobs_to_remove: del self.jobs[job_id]`. -/
def removeIds (jobs : List (String × Job)) (ids : List String) : List (String × Job) :=
  ids.foldl (fun js jid => js.filter (fun p => p.1 ≠ jid)) jobs

/-- `BulkProcessor.cleanup_old_jobs` (lines 159-176): scan the registry for
completed records older than `max_age_hours`, delete them, and print the
count.  The Python function body contains no `return` statement, so the call
evaluates to `None`, modelled as the second component `none`. -/
def cleanup_old_jobs (s : ProcState) (now : Int) (maxAge : Nat) : ProcState × Option Nat :=
  let toRemove := (s.jobs.filter (fun p => shouldRemove now maxAge p.2)).map (fun p => p.1)
  (⟨removeIds s.jobs toRemove⟩, none)

/-- Keys of a Python dict are unique; this invariant holds for every
reachable registry and is assumed where a proof needs it. -/
def keysNodup (s : ProcState) : Prop := (s.jobs.map Prod.fst).Nodup

/-! ### A heap-level view of the registry

Whether `get_job_status` returns a copy or a live reference is a question
about object identity, so for it the registry is modelled one level lower:
the job record dicts live in a heap of mutable objects addressed by `Nat`,
and `self.jobs` maps each job id to the address of its record object. -/

/-- The processor state with Python object identity made explicit:
`registry` is `self.jobs` (job id to object address) and `heap` holds the
mutable record objects themselves. -/
structure HState where
  registry : List (String × Nat)
  heap : List (Nat × Job)
deriving DecidableEq, Repr

/-- Dereference an address in the heap. -/
def heapGet (h : List (Nat × Job)) (a : Nat) : Option Job :=
  (h.find? (fun p => p.1 = a)).map (·.2)

/-- Mutate the record object at address `a` in place. -/
def heapSet (h : List (Nat × Job)) (a : Nat) (f : Job → Job) : List (Nat × Job) :=
  h.map (fun p => if p.1 = a then (p.1, f p.2) else p)

/-- `BulkProcessor.get_job_status` (lines 146-157): `return self.jobs.get(job_id)`.
Python returns the stored object itself, so at the heap level the call
returns the address held in the registry — no copy of the record is made. -/
def get_job_status (s : HState) (jid : String) : Option Nat :=
  (s.registry.find? (fun p => p.1 = jid)).map (·.2)

/-- A worker-side field update `self.jobs[job_id]['...'] = ...`: look the
record object up in the registry and mutate it in place. -/
def mutateJob (s : HState) (jid : String) (f : Job → Job) : HState :=
  match get_job_status s jid with
  | none => s
  | some a => { s with heap := heapSet s.heap a f }

/-- The worker's first mutation, `job['status'] = 'processing'`
(lines 60-64 of `_process_job`). -/
def markProcessing (s : HState) (jid : String) : HState :=
  mutateJob s jid (fun j => { j with status := JobStatus.processing })

/-! ### Spec-side characterizations of the worker loop

The following functions compute, position by position, what the loop appends
and counts; they are proved equal to the loop's effect and then used to state
the claims. -/

/-- The message of the exception, if any, that reaches the outer `except`
arm at one position: a Diagnoser exception, or else a save-preparation
exception.  (The observation and file-write steps are guarded by inner
`try` blocks and never reach the outer arm.) -/
def iterError (e : UrlEnv) : Option String :=
  match e.diag with
  | .exn m => some m
  | .ok _ =>
      match e.prep with
      | .error m => some m
      | .ok _ => none

/-- The outcome entry the worker appends for one URL, as a function of the
external outcomes at that position. -/
def mkEntry (gen : Bool) (url : String) (e : UrlEnv) : ResultEntry :=
  match e.diag with
  | .exn m => .error url m
  | .ok r =>
      match e.prep with
      | .error m => .error url m
      | .ok fname => .success url (applySave (applyObservation gen r e.obs) fname e.save)

/-- The `results` entries appended by the loop from position `idx` on. -/
def buildResults (gen : Bool) : List String → Nat → (Nat → UrlEnv) → List ResultEntry
  | [], _, _ => []
  | url :: rest, idx, env => mkEntry gen url (env idx) :: buildResults gen rest (idx + 1) env

/-- The `errors` entries appended by the loop from position `idx` on. -/
def buildErrors : List String → Nat → (Nat → UrlEnv) → List ErrEntry
  | [], _, _ => []
  | url :: rest, idx, env =>
      (match iterError (env idx) with
       | some m => [ErrEntry.mk url m]
       | none => []) ++ buildErrors rest (idx + 1) env

/-- How many positions of the loop record a success outcome. -/
def countOk : List String → Nat → (Nat → UrlEnv) → Nat
  | [], _, _ => 0
  | _ :: rest, idx, env =>
      (match iterError (env idx) with
       | none => 1
       | some _ => 0) + countOk rest (idx + 1) env

/-- How many positions of the loop record an error outcome. -/
def countExn : List String → Nat → (Nat → UrlEnv) → Nat
  | [], _, _ => 0
  | _ :: rest, idx, env =>
      (match iterError (env idx) with
       | none => 0
       | some _ => 1) + countExn rest (idx + 1) env

/-- The `url` field of an outcome entry. -/
def entryUrl : ResultEntry → String
  | .success u _ => u
  | .error u _ => u

/-! ### The observable trace of one job

`get_job_status` can observe the record between any two lock-protected
mutations; the trace lists the record after each of them, in program order:
the initial queued record, the `processing` mark (line 64), then per URL the
state after lines 72-74 (`current_url` set, `completed = idx - 1`) and after
the append block (lines 111-118 or 125-136), and finally the state after the
terminal bookkeeping (lines 139-142). -/

/-- Record states after each lock-protected mutation inside the loop. -/
def traceUrls (job : Job) (urls : List String) (idx : Nat) (env : Nat → UrlEnv) : List Job :=
  match urls with
  | [] => []
  | url :: rest =>
      { job with current_url := some url, completed := idx - 1 }
        :: processUrl job idx url (env idx)
        :: traceUrls (processUrl job idx url (env idx)) rest (idx + 1) env

/-- All record states a poller can observe during the life of one job. -/
def jobTrace (job0 : Job) (env : Nat → UrlEnv) (t1 : Int) : List Job :=
  job0 :: { job0 with status := JobStatus.processing }
    :: (traceUrls { job0 with status := JobStatus.processing } job0.urls 1 env
        ++ [processJob job0 env t1])

/-! ### Lemmas about one loop iteration -/

lemma processUrl_results (job : Job) (idx : Nat) (url : String) (e : UrlEnv) :
    (processUrl job idx url e).results =
      job.results ++ [mkEntry job.generate_observations url e] := by
  rcases e with ⟨d, o, p, sv⟩
  cases d with
  | exn m => rfl
  | ok r => cases p <;> rfl

lemma processUrl_errors (job : Job) (idx : Nat) (url : String) (e : UrlEnv) :
    (processUrl job idx url e).errors =
      job.errors ++ (match iterError e with
                     | some m => [ErrEntry.mk url m]
                     | none => []) := by
  rcases e with ⟨d, o, p, sv⟩
  cases d with
  | exn m => rfl
  | ok r =>
      cases p with
      | error m => rfl
      | ok fname => exact (List.append_nil _).symm

lemma processUrl_successful (job : Job) (idx : Nat) (url : String) (e : UrlEnv) :
    (processUrl job idx url e).successful =
      job.successful + (match iterError e with | none => 1 | some _ => 0) := by
  rcases e with ⟨d, o, p, sv⟩
  cases d with
  | exn m => rfl
  | ok r => cases p <;> rfl

lemma processUrl_failed (job : Job) (idx : Nat) (url : String) (e : UrlEnv) :
    (processUrl job idx url e).failed =
      job.failed + (match iterError e with | none => 0 | some _ => 1) := by
  rcases e with ⟨d, o, p, sv⟩
  cases d with
  | exn m => rfl
  | ok r => cases p <;> rfl

lemma processUrl_completed (job : Job) (idx : Nat) (url : String) (e : UrlEnv) :
    (processUrl job idx url e).completed = idx := by
  rcases e with ⟨d, o, p, sv⟩
  cases d with
  | exn m => rfl
  | ok r => cases p <;> rfl

lemma processUrl_total (job : Job) (idx : Nat) (url : String) (e : UrlEnv) :
    (processUrl job idx url e).total = job.total := by
  rcases e with ⟨d, o, p, sv⟩
  cases d with
  | exn m => rfl
  | ok r => cases p <;> rfl

lemma processUrl_status (job : Job) (idx : Nat) (url : String) (e : UrlEnv) :
    (processUrl job idx url e).status = job.status := by
  rcases e with ⟨d, o, p, sv⟩
  cases d with
  | exn m => rfl
  | ok r => cases p <;> rfl

lemma processUrl_genObs (job : Job) (idx : Nat) (url : String) (e : UrlEnv) :
    (processUrl job idx url e).generate_observations = job.generate_observations := by
  rcases e with ⟨d, o, p, sv⟩
  cases d with
  | exn m => rfl
  | ok r => cases p <;> rfl

/-! ### Lemmas about the whole loop -/

lemma runUrls_genObs (urls : List String) (idx : Nat) (env : Nat → UrlEnv) (job : Job) :
    (runUrls job urls idx env).generate_observations = job.generate_observations := by
  induction urls generalizing job idx with
  | nil => rfl
  | cons url rest ih =>
      rw [runUrls, ih, processUrl_genObs]

lemma runUrls_total (urls : List String) (idx : Nat) (env : Nat → UrlEnv) (job : Job) :
    (runUrls job urls idx env).total = job.total := by
  induction urls generalizing job idx with
  | nil => rfl
  | cons url rest ih =>
      rw [runUrls, ih, processUrl_total]

lemma runUrls_status (urls : List String) (idx : Nat) (env : Nat → UrlEnv) (job : Job) :
    (runUrls job urls idx env).status = job.status := by
  induction urls generalizing job idx with
  | nil => rfl
  | cons url rest ih =>
      rw [runUrls, ih, processUrl_status]

lemma runUrls_results (urls : List String) (idx : Nat) (env : Nat → UrlEnv) (job : Job) :
    (runUrls job urls idx env).results =
      job.results ++ buildResults job.generate_observations urls idx env := by
  induction urls generalizing job idx with
  | nil => exact (List.append_nil _).symm
  | cons url rest ih =>
      rw [runUrls, ih, processUrl_results, processUrl_genObs, buildResults,
        List.append_cons, List.append_assoc]
      simp

lemma runUrls_errors (urls : List String) (idx : Nat) (env : Nat → UrlEnv) (job : Job) :
    (runUrls job urls idx env).errors = job.errors ++ buildErrors urls idx env := by
  induction urls generalizing job idx with
  | nil => exact (List.append_nil _).symm
  | cons url rest ih =>
      rw [runUrls, ih, processUrl_errors, buildErrors, List.append_assoc]

lemma runUrls_successful (urls : List String) (idx : Nat) (env : Nat → UrlEnv) (job : Job) :
    (runUrls job urls idx env).successful = job.successful + countOk urls idx env := by
  induction urls generalizing job idx with
  | nil => rfl
  | cons url rest ih =>
      rw [runUrls, ih, processUrl_successful, countOk, Nat.add_assoc]

lemma runUrls_failed (urls : List String) (idx : Nat) (env : Nat → UrlEnv) (job : Job) :
    (runUrls job urls idx env).failed = job.failed + countExn urls idx env := by
  induction urls generalizing job idx with
  | nil => rfl
  | cons url rest ih =>
      rw [runUrls, ih, processUrl_failed, countExn, Nat.add_assoc]

lemma runUrls_completed (urls : List String) (idx : Nat) (env : Nat → UrlEnv) (job : Job) :
    (runUrls job urls idx env).completed =
      if urls.isEmpty then job.completed else idx + urls.length - 1 := by
  induction urls generalizing job idx with
  | nil => rfl
  | cons url rest ih =>
      rw [runUrls, ih]
      cases rest with
      | nil => simp [processUrl_completed]
      | cons u2 r2 => simp [List.isEmpty]; omega

lemma countOk_add_countExn (urls : List String) (idx : Nat) (env : Nat → UrlEnv) :
    countOk urls idx env + countExn urls idx env = urls.length := by
  induction urls generalizing idx with
  | nil => rfl
  | cons url rest ih =>
      rw [countOk, countExn, List.length_cons]
      have h := ih (idx + 1)
      cases hd : iterError (env idx) <;> simp only [hd] <;> omega

/-! ### Registry lemmas -/

lemma lookupJob_cons_ne (p : String × Job) (rest : List (String × Job)) (k : String)
    (hp : ¬ p.1 = k) :
    lookupJob (p :: rest) k = lookupJob rest k := by
  rw [lookupJob, List.find?_cons]
  simp only [decide_eq_false hp]
  rfl

lemma lookupJob_dictInsert (m : List (String × Job)) (k : String) (v : Job) :
    lookupJob (dictInsert m k v) k = some v := by
  induction m with
  | nil => simp [dictInsert, lookupJob]
  | cons p rest ih =>
      by_cases hp : p.1 = k
      · simp [dictInsert, lookupJob, hp]
      · by_cases ha : rest.any (fun q => q.1 = k)
        · have hins : dictInsert (p :: rest) k v = p :: rest.map
              (fun q => if q.1 = k then (k, v) else q) := by
            simp [dictInsert, hp, ha]
          have hrest : dictInsert rest k v = rest.map
              (fun q => if q.1 = k then (k, v) else q) := by
            simp [dictInsert, ha]
          rw [hins, lookupJob_cons_ne _ _ _ hp, ← hrest]
          exact ih
        · have hins : dictInsert (p :: rest) k v = p :: (rest ++ [(k, v)]) := by
            simp [dictInsert, hp, ha]
          have hrest : dictInsert rest k v = rest ++ [(k, v)] := by
            simp [dictInsert, ha]
          rw [hins, lookupJob_cons_ne _ _ _ hp, ← hrest]
          exact ih

lemma removeIds_eq_filter (ids : List String) :
    ∀ jobs : List (String × Job),
      removeIds jobs ids = jobs.filter (fun p => decide (p.1 ∉ ids)) := by
  induction ids with
  | nil => intro jobs; simp [removeIds]
  | cons i is ih =>
      intro jobs
      have h1 : removeIds jobs (i :: is) =
          removeIds (jobs.filter (fun p => p.1 ≠ i)) is := rfl
      rw [h1, ih, List.filter_filter]
      refine List.filter_congr fun p _ => ?_
      by_cases h2 : p.1 = i <;> by_cases h3 : p.1 ∈ is <;>
        simp [h2, h3, List.mem_cons]

/-- With unique keys, two registry entries with the same key are the same
entry. -/
lemma keysNodup_inj {s : ProcState} (h : keysNodup s) :
    ∀ p ∈ s.jobs, ∀ q ∈ s.jobs, p.1 = q.1 → p = q :=
  List.inj_on_of_nodup_map h

/-- With unique keys, `cleanup_old_jobs` keeps exactly the entries that are
not scheduled for removal. -/
lemma cleanup_jobs_eq_filter (s : ProcState) (now : Int) (maxAge : Nat)
    (h : keysNodup s) :
    (cleanup_old_jobs s now maxAge).1.jobs =
      s.jobs.filter (fun p => !(shouldRemove now maxAge p.2)) := by
  have h1 : (cleanup_old_jobs s now maxAge).1.jobs =
      removeIds s.jobs ((s.jobs.filter (fun p => shouldRemove now maxAge p.2)).map
        (fun p => p.1)) := rfl
  rw [h1, removeIds_eq_filter]
  refine List.filter_congr fun p hp => ?_
  by_cases hr : shouldRemove now maxAge p.2 = true
  · have hmem : p.1 ∈ (s.jobs.filter (fun q => shouldRemove now maxAge q.2)).map
        (fun q => q.1) :=
      List.mem_map.2 ⟨p, List.mem_filter.2 ⟨hp, hr⟩, rfl⟩
    simp [hmem, hr]
  · have hmem : p.1 ∉ (s.jobs.filter (fun q => shouldRemove now maxAge q.2)).map
        (fun q => q.1) := by
      intro hc
      rcases List.mem_map.1 hc with ⟨q, hq, hq1⟩
      rcases List.mem_filter.1 hq with ⟨hqmem, hqr⟩
      have : q = p := keysNodup_inj h q hqmem p hp hq1
      rw [this] at hqr
      exact hr hqr
    simp [hmem, hr]

/-! ### Injectivity of the decimal job-id rendering -/

/-- Numeric value of a decimal digit character. -/
def charVal (c : Char) : Nat := c.toNat - 48

/-- Read a digit-character list back as a number. -/
def decodeDigits (l : List Char) : Nat := l.foldl (fun a c => 10 * a + charVal c) 0

lemma digitChar_val : ∀ d : Nat, d < 10 → charVal (Nat.digitChar d) = d := by decide

lemma toDigitsCore_acc (b : Nat) :
    ∀ (fuel n : Nat) (ds : List Char),
      Nat.toDigitsCore b fuel n ds = Nat.toDigitsCore b fuel n [] ++ ds := by
  intro fuel
  induction fuel with
  | zero => intro n ds; rfl
  | succ f ih =>
      intro n ds
      simp only [Nat.toDigitsCore]
      by_cases h : n / b = 0
      · simp [h]
      · rw [if_neg h, if_neg h, ih (n / b) [Nat.digitChar (n % b)],
          ih (n / b) (Nat.digitChar (n % b) :: ds), List.append_assoc]
        rfl

lemma toDigitsCore_fuel (b : Nat) (hb : 2 ≤ b) :
    ∀ (f1 f2 n : Nat), n < f1 → n < f2 →
      Nat.toDigitsCore b f1 n [] = Nat.toDigitsCore b f2 n [] := by
  intro f1
  induction f1 with
  | zero => intro f2 n h1 _; omega
  | succ g1 ih =>
      intro f2 n h1 h2
      cases f2 with
      | zero => omega
      | succ g2 =>
          simp only [Nat.toDigitsCore]
          by_cases h : n / b = 0
          · simp [h]
          · have hn : 0 < n := by
              rcases Nat.eq_zero_or_pos n with rfl | hp
              · exact absurd (Nat.zero_div b) h
              · exact hp
            have hdiv : n / b < n := Nat.div_lt_self hn (by omega)
            rw [if_neg h, if_neg h, toDigitsCore_acc b g1, toDigitsCore_acc b g2,
              ih g2 (n / b) (by omega) (by omega)]

lemma toDigits10_rec (n : Nat) :
    Nat.toDigits 10 n =
      if n < 10 then [Nat.digitChar n]
      else Nat.toDigits 10 (n / 10) ++ [Nat.digitChar (n % 10)] := by
  show Nat.toDigitsCore 10 (n + 1) n [] = _
  simp only [Nat.toDigitsCore]
  by_cases h : n / 10 = 0
  · have hlt : n < 10 := (Nat.div_eq_zero_iff (by norm_num)).1 h
    rw [if_pos h, if_pos hlt, Nat.mod_eq_of_lt hlt]
  · have hge : ¬ n < 10 := by
      intro hc
      exact h ((Nat.div_eq_zero_iff (by norm_num)).2 hc)
    have hn : 0 < n := by omega
    have hdiv : n / 10 < n := Nat.div_lt_self hn (by norm_num)
    rw [if_neg h, if_neg hge, toDigitsCore_acc 10 n]
    congr 1
    show Nat.toDigitsCore 10 n (n / 10) [] = Nat.toDigitsCore 10 (n / 10 + 1) (n / 10) []
    exact toDigitsCore_fuel 10 (by norm_num) n (n / 10 + 1) (n / 10) hdiv (Nat.lt_succ_self _)

lemma decode_toDigits (n : Nat) : decodeDigits (Nat.toDigits 10 n) = n := by
  induction n using Nat.strong_induction_on with
  | _ n ih =>
      rw [toDigits10_rec]
      by_cases h : n < 10
      · rw [if_pos h]
        show 10 * 0 + charVal (Nat.digitChar n) = n
        rw [digitChar_val n h]
        omega
      · rw [if_neg h]
        have hn : 0 < n := by omega
        have hdiv : n / 10 < n := Nat.div_lt_self hn (by norm_num)
        show List.foldl (fun a c => 10 * a + charVal c)
          0 (Nat.toDigits 10 (n / 10) ++ [Nat.digitChar (n % 10)]) = n
        rw [List.foldl_append]
        have h1 : List.foldl (fun a c => 10 * a + charVal c) 0 (Nat.toDigits 10 (n / 10)) =
            n / 10 := ih (n / 10) hdiv
        rw [h1]
        show 10 * (n / 10) + charVal (Nat.digitChar (n % 10)) = n
        rw [digitChar_val (n % 10) (Nat.mod_lt n (by norm_num))]
        omega

lemma natRepr_injective : Function.Injective Nat.repr := by
  intro m n h
  have hdata : Nat.toDigits 10 m = Nat.toDigits 10 n := congrArg String.data h
  have := congrArg decodeDigits hdata
  rwa [decode_toDigits, decode_toDigits] at this

lemma mkJobId_injective : Function.Injective mkJobId := by
  intro t1 t2 h
  apply natRepr_injective
  apply String.ext
  have hdata := congrArg String.data h
  rw [mkJobId, mkJobId, String.data_append, String.data_append] at hdata
  exact List.append_cancel_left hdata

/-! ### Heap lemmas -/

lemma heapGet_cons_ne (p : Nat × Job) (rest : List (Nat × Job)) (a : Nat)
    (hp : ¬ p.1 = a) :
    heapGet (p :: rest) a = heapGet rest a := by
  rw [heapGet, List.find?_cons]
  simp only [decide_eq_false hp]
  rfl

lemma heapGet_heapSet (h : List (Nat × Job)) (a : Nat) (f : Job → Job) :
    heapGet (heapSet h a f) a = (heapGet h a).map f := by
  induction h with
  | nil => rfl
  | cons p rest ih =>
      by_cases hp : p.1 = a
      · simp [heapGet, heapSet, List.find?_cons, hp]
      · have h2 : heapSet (p :: rest) a f = p :: heapSet rest a f := by
          simp [heapSet, if_neg hp]
        rw [h2, heapGet_cons_ne _ _ _ hp, heapGet_cons_ne _ _ _ hp, ih]

/-! ### Lemmas about one whole worker run -/

lemma processJob_status (job0 : Job) (env : Nat → UrlEnv) (t1 : Int) :
    (processJob job0 env t1).status = JobStatus.completed := rfl

lemma processJob_completed_at (job0 : Job) (env : Nat → UrlEnv) (t1 : Int) :
    (processJob job0 env t1).completed_at = some t1 := rfl

lemma processJob_current_url (job0 : Job) (env : Nat → UrlEnv) (t1 : Int) :
    (processJob job0 env t1).current_url = none := rfl

lemma processJob_total (job0 : Job) (env : Nat → UrlEnv) (t1 : Int) :
    (processJob job0 env t1).total = job0.total :=
  runUrls_total job0.urls 1 env { job0 with status := JobStatus.processing }

lemma processJob_results (job0 : Job) (env : Nat → UrlEnv) (t1 : Int) :
    (processJob job0 env t1).results =
      job0.results ++ buildResults job0.generate_observations job0.urls 1 env :=
  runUrls_results job0.urls 1 env { job0 with status := JobStatus.processing }

lemma processJob_errors (job0 : Job) (env : Nat → UrlEnv) (t1 : Int) :
    (processJob job0 env t1).errors = job0.errors ++ buildErrors job0.urls 1 env :=
  runUrls_errors job0.urls 1 env { job0 with status := JobStatus.processing }

lemma processJob_successful (job0 : Job) (env : Nat → UrlEnv) (t1 : Int) :
    (processJob job0 env t1).successful = job0.successful + countOk job0.urls 1 env :=
  runUrls_successful job0.urls 1 env { job0 with status := JobStatus.processing }

lemma processJob_failed (job0 : Job) (env : Nat → UrlEnv) (t1 : Int) :
    (processJob job0 env t1).failed = job0.failed + countExn job0.urls 1 env :=
  runUrls_failed job0.urls 1 env { job0 with status := JobStatus.processing }

lemma processJob_completed (job0 : Job) (env : Nat → UrlEnv) (t1 : Int) :
    (processJob job0 env t1).completed =
      if job0.urls.isEmpty then job0.completed else job0.urls.length := by
  have h := runUrls_completed job0.urls 1 env { job0 with status := JobStatus.processing }
  have h2 : (processJob job0 env t1).completed =
      (runUrls { job0 with status := JobStatus.processing } job0.urls 1 env).completed := rfl
  rw [h2, h]
  cases job0.urls with
  | nil => rfl
  | cons u r => simp

/-- For a freshly created record, the worker drives `completed` all the way
to `total`. -/
lemma processJob_newJob_completed (jid : String) (t0 : Int) (urls : List String) (gen : Bool)
    (env : Nat → UrlEnv) (t1 : Int) :
    (processJob (newJob jid t0 urls gen) env t1).completed = urls.length := by
  rw [processJob_completed]
  cases urls with
  | nil => rfl
  | cons u r => rfl

/-- Invariant of the loop trace: iterations never change `total` or `status`,
and `completed` never exceeds `total`. -/
lemma traceUrls_mem (env : Nat → UrlEnv) :
    ∀ (urls : List String) (idx : Nat) (job : Job),
      job.completed ≤ job.total → idx + urls.length ≤ job.total + 1 →
      ∀ s ∈ traceUrls job urls idx env,
        s.total = job.total ∧ s.status = job.status ∧ s.completed ≤ job.total := by
  intro urls
  induction urls with
  | nil =>
      intro idx job _ _ s hs
      simp [traceUrls] at hs
  | cons url rest ih =>
      intro idx job hc hlen s hs
      have hlen' : idx + rest.length + 1 ≤ job.total + 1 := by
        simpa [Nat.add_assoc, Nat.add_comm] using hlen
      rw [traceUrls] at hs
      rcases List.mem_cons.1 hs with rfl | hs2
      · exact ⟨rfl, rfl, by show idx - 1 ≤ job.total; omega⟩
      rcases List.mem_cons.1 hs2 with rfl | hs3
      · exact ⟨processUrl_total _ _ _ _, processUrl_status _ _ _ _, by
          rw [processUrl_completed]; omega⟩
      · have hrec := ih (idx + 1) (processUrl job idx url (env idx))
          (by rw [processUrl_completed, processUrl_total]; omega)
          (by rw [processUrl_total]; omega) s hs3
        rw [processUrl_total, processUrl_status] at hrec
        exact hrec

lemma buildResults_map_url (gen : Bool) (urls : List String) (idx : Nat) (env : Nat → UrlEnv) :
    (buildResults gen urls idx env).map entryUrl = urls := by
  induction urls generalizing idx with
  | nil => rfl
  | cons url rest ih =>
      rw [buildResults, List.map_cons, ih]
      congr 1
      unfold mkEntry
      cases (env idx).diag with
      | exn m => rfl
      | ok r => cases (env idx).prep <;> rfl

lemma buildResults_length (gen : Bool) (urls : List String) (idx : Nat) (env : Nat → UrlEnv) :
    (buildResults gen urls idx env).length = urls.length := by
  have h := congrArg List.length (buildResults_map_url gen urls idx env)
  simpa using h

/-- When the Diagnoser fails at every position, every position counts as a
failure. -/
lemma countExn_all (urls : List String) (idx : Nat) (env : Nat → UrlEnv)
    (h : ∀ i, ∃ m, (env i).diag = DiagOutcome.exn m) :
    countExn urls idx env = urls.length := by
  induction urls generalizing idx with
  | nil => rfl
  | cons url rest ih =>
      obtain ⟨m, hm⟩ := h idx
      have hie : iterError (env idx) = some m := by
        unfold iterError
        rw [hm]
      rw [countExn, hie]
      show 1 + countExn rest (idx + 1) env = (url :: rest).length
      rw [ih (idx + 1), List.length_cons]
      omega

/-- When the Diagnoser fails at every position, no position counts as a
success. -/
lemma countOk_all (urls : List String) (idx : Nat) (env : Nat → UrlEnv)
    (h : ∀ i, ∃ m, (env i).diag = DiagOutcome.exn m) :
    countOk urls idx env = 0 := by
  induction urls generalizing idx with
  | nil => rfl
  | cons url rest ih =>
      obtain ⟨m, hm⟩ := h idx
      have hie : iterError (env idx) = some m := by
        unfold iterError
        rw [hm]
      rw [countOk, hie]
      show 0 + countOk rest (idx + 1) env = 0
      rw [ih (idx + 1)]

lemma length_filter_not_add (l : List (String × Job)) (p : (String × Job) → Bool) :
    (l.filter (fun x => !(p x))).length + (l.filter p).length = l.length := by
  induction l with
  | nil => rfl
  | cons a t ih => cases hp : p a <;> simp [List.filter_cons, hp] <;> omega

/-- Unfolding of the removal test of lines 166-169. -/
lemma shouldRemove_iff (now : Int) (maxAge : Nat) (j : Job) :
    shouldRemove now maxAge j = true ↔
      (j.status = JobStatus.completed ∧
        ∃ t, j.completed_at = some t ∧ ageHours now t > (maxAge : ℚ)) := by
  unfold shouldRemove
  by_cases hs : j.status = JobStatus.completed
  · rw [if_pos hs]
    cases hct : j.completed_at with
    | none => simp [hs, hct]
    | some t => simp [hs, hct]
  · rw [if_neg hs]
    simp [hs]

/-! ### Shared concrete samples used by witnesses and counterexamples -/

/-- A constant environment in which the Diagnoser raises on every URL. -/
def allFailEnv : Nat → UrlEnv :=
  fun _ => ⟨DiagOutcome.exn "boom", Except.error "no obs", Except.ok "f",
    Except.error "disk full"⟩

/-- A registry entry for a job that finished at clock reading 0. -/
def sampleCompletedJob : Job :=
  { newJob "job_1" 0 ["u"] false with
      status := JobStatus.completed, completed_at := some 0 }

/-- A heap-level state holding one freshly created job record at address 0. -/
def sampleHState : HState :=
  ⟨[("job_0", 0)], [(0, newJob "job_0" 0 ["u"] false)]⟩

/-! ### The claims -/

/-- C1: for every job and every sequence of per-URL Diagnoser outcomes, the
worker never aborts.  First conjunct: a Diagnoser failure at position `idx`
appends an error outcome to `results` and `errors`, increments `failed`,
leaves `successful` unchanged, and sets `completed = idx` (processing then
continues with the next position by the loop equation).  Second conjunct:
whatever the outcomes, the terminal bookkeeping runs, so the job ends
`completed` with `completed_at` set, `current_url` cleared, `completed` equal
to the URL count, and one outcome per URL.  Third conjunct: a Diagnoser that
fails on every URL still ends with status `completed`, `failed = total`,
`successful = 0`. -/
theorem C1_worker_never_aborts :
    (∀ (job : Job) (idx : Nat) (url : String) (m : String)
        (obsE : Except String (Option String)) (prepE : Except String String)
        (saveE : Except String Unit),
        (processUrl job idx url ⟨DiagOutcome.exn m, obsE, prepE, saveE⟩).results =
            job.results ++ [ResultEntry.error url m] ∧
        (processUrl job idx url ⟨DiagOutcome.exn m, obsE, prepE, saveE⟩).errors =
            job.errors ++ [ErrEntry.mk url m] ∧
        (processUrl job idx url ⟨DiagOutcome.exn m, obsE, prepE, saveE⟩).failed = job.failed + 1 ∧
        (processUrl job idx url ⟨DiagOutcome.exn m, obsE, prepE, saveE⟩).successful = job.successful ∧
        (processUrl job idx url ⟨DiagOutcome.exn m, obsE, prepE, saveE⟩).completed = idx) ∧
    (∀ (jid : String) (t0 : Int) (urls : List String) (gen : Bool)
        (env : Nat → UrlEnv) (t1 : Int),
        (processJob (newJob jid t0 urls gen) env t1).status = JobStatus.completed ∧
        (processJob (newJob jid t0 urls gen) env t1).completed_at = some t1 ∧
        (processJob (newJob jid t0 urls gen) env t1).current_url = none ∧
        (processJob (newJob jid t0 urls gen) env t1).completed = urls.length ∧
        (processJob (newJob jid t0 urls gen) env t1).results.length = urls.length) ∧
    (∀ (jid : String) (t0 : Int) (urls : List String) (gen : Bool)
        (env : Nat → UrlEnv) (t1 : Int),
        (∀ i, ∃ m, (env i).diag = DiagOutcome.exn m) →
        (processJob (newJob jid t0 urls gen) env t1).status = JobStatus.completed ∧
        (processJob (newJob jid t0 urls gen) env t1).failed = urls.length ∧
        (processJob (newJob jid t0 urls gen) env t1).successful = 0) := by
  refine ⟨?_, ?_, ?_⟩
  · intro job idx url m obsE prepE saveE
    exact ⟨rfl, rfl, rfl, rfl, rfl⟩
  · intro jid t0 urls gen env t1
    refine ⟨processJob_status _ _ _, processJob_completed_at _ _ _,
      processJob_current_url _ _ _, processJob_newJob_completed _ _ _ _ _ _, ?_⟩
    rw [processJob_results]
    show (([] : List ResultEntry) ++ buildResults gen urls 1 env).length = urls.length
    rw [List.nil_append, buildResults_length]
  · intro jid t0 urls gen env t1 h
    refine ⟨processJob_status _ _ _, ?_, ?_⟩
    · rw [processJob_failed]
      show 0 + countExn urls 1 env = urls.length
      rw [countExn_all urls 1 env h, Nat.zero_add]
    · rw [processJob_successful]
      show 0 + countOk urls 1 env = 0
      rw [countOk_all urls 1 env h]

/-- Witness for C1 at a concrete input: one URL, a Diagnoser that always
raises. -/
theorem C1_worker_never_aborts_witness :
    (processJob (newJob "j" 0 ["a"] false) allFailEnv 5).status = JobStatus.completed ∧
    (processJob (newJob "j" 0 ["a"] false) allFailEnv 5).failed = 1 ∧
    (processJob (newJob "j" 0 ["a"] false) allFailEnv 5).successful = 0 := by
  have h := C1_worker_never_aborts.2.2 "j" 0 ["a"] false allFailEnv 5
    (fun i => ⟨"boom", rfl⟩)
  exact h

/-- C2: along every observable state of a job's life, `completed ≤ total`;
and any observable state with status `completed` satisfies
`successful + failed = completed = total`. -/
theorem C2_counter_invariants (jid : String) (t0 : Int) (urls : List String) (gen : Bool)
    (env : Nat → UrlEnv) (t1 : Int) :
    (∀ s ∈ jobTrace (newJob jid t0 urls gen) env t1, s.completed ≤ s.total) ∧
    (∀ s ∈ jobTrace (newJob jid t0 urls gen) env t1,
        s.status = JobStatus.completed →
          s.successful + s.failed = s.completed ∧ s.completed = s.total) := by
  set j0 := newJob jid t0 urls gen with hj0
  have hmem : ∀ s ∈ jobTrace j0 env t1,
      s = j0 ∨ s = { j0 with status := JobStatus.processing } ∨
      s ∈ traceUrls { j0 with status := JobStatus.processing } j0.urls 1 env ∨
      s = processJob j0 env t1 := by
    intro s hs
    rw [jobTrace] at hs
    rcases List.mem_cons.1 hs with h | hs2
    · exact Or.inl h
    rcases List.mem_cons.1 hs2 with h | hs3
    · exact Or.inr (Or.inl h)
    rcases List.mem_append.1 hs3 with h | h
    · exact Or.inr (Or.inr (Or.inl h))
    · exact Or.inr (Or.inr (Or.inr (List.mem_singleton.1 h)))
  have htrace : ∀ s ∈ traceUrls { j0 with status := JobStatus.processing } j0.urls 1 env,
      s.total = urls.length ∧ s.status = JobStatus.processing ∧ s.completed ≤ urls.length := by
    intro s hs
    have h := traceUrls_mem env j0.urls 1 { j0 with status := JobStatus.processing }
      (by show (0 : Nat) ≤ urls.length; exact Nat.zero_le _)
      (by show 1 + urls.length ≤ urls.length + 1; omega) s hs
    exact h
  constructor
  · intro s hs
    rcases hmem s hs with rfl | rfl | h | rfl
    · exact Nat.zero_le _
    · exact Nat.zero_le _
    · rcases htrace s h with ⟨ht, _, hc⟩
      rw [ht]
      exact hc
    · rw [processJob_newJob_completed, processJob_total]
      show urls.length ≤ urls.length
      exact Nat.le_refl _
  · intro s hs hstat
    rcases hmem s hs with rfl | rfl | h | rfl
    · exact absurd hstat (by simp [hj0, newJob])
    · exact absurd hstat (by simp)
    · rcases htrace s h with ⟨_, hst, _⟩
      rw [hst] at hstat
      exact absurd hstat (by simp)
    · constructor
      · rw [processJob_successful, processJob_failed, processJob_newJob_completed]
        show 0 + countOk urls 1 env + (0 + countExn urls 1 env) = urls.length
        rw [Nat.zero_add, Nat.zero_add, countOk_add_countExn]
      · rw [processJob_newJob_completed, processJob_total]
        rfl

/-- Witness for C2 at a concrete input: the final state of a one-URL job run
with an always-failing Diagnoser. -/
theorem C2_counter_invariants_witness :
    (processJob (newJob "j" 0 ["a"] false) allFailEnv 5).successful +
        (processJob (newJob "j" 0 ["a"] false) allFailEnv 5).failed =
      (processJob (newJob "j" 0 ["a"] false) allFailEnv 5).completed ∧
    (processJob (newJob "j" 0 ["a"] false) allFailEnv 5).completed =
      (processJob (newJob "j" 0 ["a"] false) allFailEnv 5).total := by
  have h := (C2_counter_invariants "j" 0 ["a"] false allFailEnv 5).2
    (processJob (newJob "j" 0 ["a"] false) allFailEnv 5) (by decide) (by decide)
  exact h

/-- C3 counterexample: `create_job` performs no validation, so calling it
with the empty URL list does return a job id ("job_0" for millisecond clock
0) and does register a job record under that id — refuting the claim that
the call is rejected with a ValidationError, returns no id and registers
nothing. -/
theorem C3_empty_batch_counterexample :
    (create_job ⟨[]⟩ 0 0 [] false).2 = "job_0" ∧
    lookupJob (create_job ⟨[]⟩ 0 0 [] false).1.jobs "job_0" =
      some (newJob "job_0" 0 [] false) := by
  exact ⟨rfl, by decide⟩

/-- C3 amended: creating a job with an empty URL list is accepted, not
rejected: `create_job` (whose result type has no error outcome) returns the
id derived from the clock and registers a queued record with `total = 0`
under that id. -/
theorem C3_empty_batch_amended (s : ProcState) (t_ms : Nat) (clock : Int) (gen : Bool) :
    (create_job s t_ms clock [] gen).2 = mkJobId t_ms ∧
    lookupJob (create_job s t_ms clock [] gen).1.jobs (mkJobId t_ms) =
      some (newJob (mkJobId t_ms) clock [] gen) ∧
    (newJob (mkJobId t_ms) clock [] gen).status = JobStatus.queued ∧
    (newJob (mkJobId t_ms) clock [] gen).total = 0 :=
  ⟨rfl, lookupJob_dictInsert s.jobs (mkJobId t_ms) (newJob (mkJobId t_ms) clock [] gen),
    rfl, rfl⟩

/-- C4: with unique registry keys, `cleanup_old_jobs` retains an entry
exactly when it is not a completed record strictly older than `max_age`
hours; in particular queued and processing records are never removed, and a
completed record whose age equals `max_age` exactly is retained. -/
theorem C4_cleanup_exact (s : ProcState) (now : Int) (maxAge : Nat) (h : keysNodup s)
    (jid : String) (j : Job) (hmem : (jid, j) ∈ s.jobs) :
    ((jid, j) ∈ (cleanup_old_jobs s now maxAge).1.jobs ↔
      ¬ (j.status = JobStatus.completed ∧
          ∃ t, j.completed_at = some t ∧ ageHours now t > (maxAge : ℚ))) ∧
    (j.status = JobStatus.queued ∨ j.status = JobStatus.processing →
      (jid, j) ∈ (cleanup_old_jobs s now maxAge).1.jobs) ∧
    (∀ t, j.status = JobStatus.completed → j.completed_at = some t →
      ageHours now t = (maxAge : ℚ) → (jid, j) ∈ (cleanup_old_jobs s now maxAge).1.jobs) := by
  have hiff : (jid, j) ∈ (cleanup_old_jobs s now maxAge).1.jobs ↔
      ¬ (j.status = JobStatus.completed ∧
          ∃ t, j.completed_at = some t ∧ ageHours now t > (maxAge : ℚ)) := by
    rw [cleanup_jobs_eq_filter s now maxAge h, List.mem_filter]
    constructor
    · intro ⟨_, hkeep⟩
      intro hc
      rw [← shouldRemove_iff now maxAge j] at hc
      rw [hc] at hkeep
      simp at hkeep
    · intro hn
      refine ⟨hmem, ?_⟩
      rw [← shouldRemove_iff now maxAge j] at hn
      simp [Bool.eq_false_iff.2 (fun hc => hn hc)]
  refine ⟨hiff, ?_, ?_⟩
  · intro hs
    rw [hiff]
    intro ⟨hcomp, _⟩
    rcases hs with hq | hp
    · rw [hq] at hcomp; exact JobStatus.noConfusion hcomp
    · rw [hp] at hcomp; exact JobStatus.noConfusion hcomp
  · intro t _ hct hage
    rw [hiff]
    intro ⟨_, t2, hct2, hgt⟩
    rw [hct] at hct2
    cases hct2
    rw [hage] at hgt
    exact lt_irrefl _ hgt

/-- Witness for C4 at a concrete input: a completed job whose age is exactly
`max_age` (one hour) is retained by cleanup. -/
theorem C4_cleanup_exact_witness :
    ("job_1", sampleCompletedJob) ∈
      (cleanup_old_jobs ⟨[("job_1", sampleCompletedJob)]⟩ 3600 1).1.jobs := by
  have h := C4_cleanup_exact ⟨[("job_1", sampleCompletedJob)]⟩ 3600 1
    (by simp [keysNodup]) "job_1" sampleCompletedJob (by simp)
  exact h.2.2 0 rfl rfl (by norm_num [ageHours])

/-- C5 counterexample: `get_job_status` returns the very address stored in
the registry, not a copy: after the worker's `status = 'processing'` update,
the value read through the reference obtained *before* the update has
changed — refuting the claim that a returned snapshot is unaffected by
subsequent worker mutations. -/
theorem C5_snapshot_counterexample :
    get_job_status sampleHState "job_0" = some 0 ∧
    heapGet (markProcessing sampleHState "job_0").heap 0 ≠ heapGet sampleHState.heap 0 ∧
    heapGet (markProcessing sampleHState "job_0").heap 0 =
      some { newJob "job_0" 0 ["u"] false with status := JobStatus.processing } := by
  refine ⟨rfl, ?_, rfl⟩
  decide

/-- C5 amended: `get_job_status` returns a live reference, not a copy: it
returns exactly the address the registry maps the id to, so any worker
mutation of the record is observed through the returned reference. -/
theorem C5_live_reference_amended (s : HState) (jid : String) (a : Nat) (f : Job → Job)
    (h : get_job_status s jid = some a) :
    heapGet (mutateJob s jid f).heap a = (heapGet s.heap a).map f := by
  unfold mutateJob
  rw [h]
  exact heapGet_heapSet s.heap a f

/-- Witness for C5 at a concrete input. -/
theorem C5_live_reference_amended_witness :
    heapGet (mutateJob sampleHState "job_0"
        (fun j => { j with status := JobStatus.processing })).heap 0 =
      (heapGet sampleHState.heap 0).map (fun j => { j with status := JobStatus.processing }) :=
  C5_live_reference_amended sampleHState "job_0" 0
    (fun j => { j with status := JobStatus.processing }) (by decide)

/-- C6 counterexample: job ids are derived from the millisecond clock alone,
so two creations in the same millisecond (both at clock 7) receive the same
id and the second overwrites the first's record: after two creations the
registry holds one record, and it is the second one — refuting the claim
that every creation allocates a fresh, never-reused id and that N creations
yield N distinct records. -/
theorem C6_id_collision_counterexample :
    (create_job ⟨[]⟩ 7 0 ["a"] false).2 =
      (create_job (create_job ⟨[]⟩ 7 0 ["a"] false).1 7 0 ["b"] false).2 ∧
    (create_job (create_job ⟨[]⟩ 7 0 ["a"] false).1 7 0 ["b"] false).1.jobs.length = 1 ∧
    lookupJob (create_job (create_job ⟨[]⟩ 7 0 ["a"] false).1 7 0 ["b"] false).1.jobs
        "job_7" = some (newJob "job_7" 0 ["b"] false) := by
  refine ⟨rfl, by decide, by decide⟩

/-- C6 amended: the job id is a pure function of the creation clock in
milliseconds.  Creations at distinct millisecond timestamps do receive
distinct ids (the decimal rendering is injective), but a creation sharing
the millisecond of an earlier one receives the same id and its record
overwrites the earlier record in the registry. -/
theorem C6_id_uniqueness_amended :
    (∀ t1 t2 : Nat, t1 ≠ t2 → mkJobId t1 ≠ mkJobId t2) ∧
    (∀ (s : ProcState) (t : Nat) (c c2 : Int) (u u2 : List String) (g g2 : Bool),
      (create_job s t c u g).2 = (create_job (create_job s t c u g).1 t c2 u2 g2).2 ∧
      lookupJob (create_job (create_job s t c u g).1 t c2 u2 g2).1.jobs (mkJobId t) =
        some (newJob (mkJobId t) c2 u2 g2)) := by
  constructor
  · intro t1 t2 h hc
    exact h (mkJobId_injective hc)
  · intro s t c c2 u u2 g g2
    exact ⟨rfl, lookupJob_dictInsert _ _ _⟩

/-- Witness for C6 at a concrete input: clocks 0 and 1 give distinct ids. -/
theorem C6_id_uniqueness_amended_witness : mkJobId 0 ≠ mkJobId 1 :=
  C6_id_uniqueness_amended.1 0 1 (by decide)

/-- External outcomes for the concrete C7 scenario: the Diagnoser succeeds
at positions 1 and 3 and raises at position 2; persistence always succeeds. -/
def scenarioEnv : Nat → UrlEnv := fun i =>
  if i = 2 then ⟨DiagOutcome.exn "m", Except.ok none, Except.ok "f", Except.ok ()⟩
  else ⟨DiagOutcome.ok ⟨false, none, none, none, none⟩, Except.ok none, Except.ok "f",
    Except.ok ()⟩

/-- C7: URLs are processed in submission order and `results` lists outcomes
in that same order (first conjunct: the URLs of the outcome list are exactly
the submitted list, in order).  Second conjunct, the concrete scenario: for
the batch [A, B, C] with the Diagnoser succeeding on A and C and failing on
B, the final state is `results = [success A, error B, success C]`,
`successful = 2`, `failed = 1`, `completed = 3`, status completed, and
`errors` holds exactly the entry for B. -/
theorem C7_order_preserved :
    (∀ (jid : String) (t0 : Int) (urls : List String) (gen : Bool)
        (env : Nat → UrlEnv) (t1 : Int),
        (processJob (newJob jid t0 urls gen) env t1).results.map entryUrl = urls) ∧
    ((processJob (newJob "j" 0 ["A", "B", "C"] false) scenarioEnv 9).results =
        [ResultEntry.success "A" ⟨false, none, some "f", some true, none⟩,
         ResultEntry.error "B" "m",
         ResultEntry.success "C" ⟨false, none, some "f", some true, none⟩] ∧
      (processJob (newJob "j" 0 ["A", "B", "C"] false) scenarioEnv 9).successful = 2 ∧
      (processJob (newJob "j" 0 ["A", "B", "C"] false) scenarioEnv 9).failed = 1 ∧
      (processJob (newJob "j" 0 ["A", "B", "C"] false) scenarioEnv 9).completed = 3 ∧
      (processJob (newJob "j" 0 ["A", "B", "C"] false) scenarioEnv 9).status =
        JobStatus.completed ∧
      (processJob (newJob "j" 0 ["A", "B", "C"] false) scenarioEnv 9).errors =
        [ErrEntry.mk "B" "m"]) := by
  constructor
  · intro jid t0 urls gen env t1
    rw [processJob_results]
    show (([] : List ResultEntry) ++ buildResults gen urls 1 env).map entryUrl = urls
    rw [List.nil_append, buildResults_map_url]
  · exact ⟨by decide, by decide, by decide, by decide, rfl, by decide⟩

/-- C8 counterexample: the `try` body contains unguarded raise sites *after*
a Diagnoser success — the `urlparse`-based file-name derivation (line 91)
and `os.makedirs` (line 98), inside the claim's cited range of lines 81-108.
For example `urlparse("http://[::1")` raises `ValueError: Invalid IPv6 URL`
while `diagnose_site` returns normally on that URL (it catches navigation
errors internally and guards its own `urlparse` call).  The exception lands
in the outer `except` arm, which records an **error** outcome and increments
`failed` — a Diagnoser success turned into a recorded failure, refuting the
claim that a success is recorded regardless of what happens afterwards. -/
theorem C8_success_downgrade_counterexample :
    (processUrl (newJob "j" 0 ["http://[::1"] false) 1 "http://[::1"
        ⟨DiagOutcome.ok ⟨false, none, none, none, none⟩, Except.ok none,
          Except.error "Invalid IPv6 URL", Except.ok ()⟩).results =
      [ResultEntry.error "http://[::1" "Invalid IPv6 URL"] ∧
    (processUrl (newJob "j" 0 ["http://[::1"] false) 1 "http://[::1"
        ⟨DiagOutcome.ok ⟨false, none, none, none, none⟩, Except.ok none,
          Except.error "Invalid IPv6 URL", Except.ok ()⟩).failed = 1 ∧
    (processUrl (newJob "j" 0 ["http://[::1"] false) 1 "http://[::1"
        ⟨DiagOutcome.ok ⟨false, none, none, none, none⟩, Except.ok none,
          Except.error "Invalid IPv6 URL", Except.ok ()⟩).successful = 0 ∧
    (processUrl (newJob "j" 0 ["http://[::1"] false) 1 "http://[::1"
        ⟨DiagOutcome.ok ⟨false, none, none, none, none⟩, Except.ok none,
          Except.error "Invalid IPv6 URL", Except.ok ()⟩).errors =
      [ErrEntry.mk "http://[::1" "Invalid IPv6 URL"] :=
  ⟨rfl, rfl, rfl, rfl⟩

/-- C8 amended: for every URL on which the Diagnoser succeeds *and the
unguarded save-preparation steps (file-name derivation and `os.makedirs`,
lines 90-98) do not raise*, the recorded outcome is a success whatever the
other collaborators do (first conjunct); an ObservationGenerator failure is
swallowed and leaves the payload unchanged, merely omitting the optional
observation field (second conjunct); a failure of the guarded file write
still yields a success outcome, only annotating the payload with
`saved = false` and the error message (third conjunct), while persistence
success annotates it with the file name and `saved = true` (fourth
conjunct).  A save-preparation exception, however, reaches the outer
`except` arm and records an error outcome counted in `failed` (fifth
conjunct). -/
theorem C8_success_conditions_amended (job : Job) (idx : Nat) (url : String) (r : DiagResult)
    (obsE : Except String (Option String)) (fname : String) (saveE : Except String Unit)
    (e msg pmsg : String) :
    ((processUrl job idx url ⟨DiagOutcome.ok r, obsE, Except.ok fname, saveE⟩).results =
        job.results ++ [ResultEntry.success url
          (applySave (applyObservation job.generate_observations r obsE) fname saveE)] ∧
      (processUrl job idx url ⟨DiagOutcome.ok r, obsE, Except.ok fname, saveE⟩).successful =
        job.successful + 1 ∧
      (processUrl job idx url ⟨DiagOutcome.ok r, obsE, Except.ok fname, saveE⟩).failed =
        job.failed ∧
      (processUrl job idx url ⟨DiagOutcome.ok r, obsE, Except.ok fname, saveE⟩).errors =
        job.errors) ∧
    applyObservation job.generate_observations r (Except.error e) = r ∧
    applySave r fname (Except.error msg) =
      { r with saved := some false, save_error := some msg } ∧
    applySave r fname (Except.ok ()) =
      { r with output_file := some fname, saved := some true } ∧
    ((processUrl job idx url ⟨DiagOutcome.ok r, obsE, Except.error pmsg, saveE⟩).results =
        job.results ++ [ResultEntry.error url pmsg] ∧
      (processUrl job idx url ⟨DiagOutcome.ok r, obsE, Except.error pmsg, saveE⟩).failed =
        job.failed + 1 ∧
      (processUrl job idx url ⟨DiagOutcome.ok r, obsE, Except.error pmsg, saveE⟩).errors =
        job.errors ++ [ErrEntry.mk url pmsg]) := by
  refine ⟨⟨rfl, rfl, rfl, rfl⟩, ?_, rfl, rfl, rfl, rfl, rfl⟩
  unfold applyObservation
  exact ite_self r

/-- C10: creating a job with an empty URL list does register a record and
return its id, and the worker for that record performs zero iterations and
drives it straight to status completed with all counters zero, empty outcome
lists, `current_url` cleared and `completed_at` set. -/
theorem C10_empty_batch_behavior (s : ProcState) (t_ms : Nat) (clock : Int) (gen : Bool)
    (env : Nat → UrlEnv) (t1 : Int) :
    (create_job s t_ms clock [] gen).2 = mkJobId t_ms ∧
    lookupJob (create_job s t_ms clock [] gen).1.jobs (mkJobId t_ms) =
      some (newJob (mkJobId t_ms) clock [] gen) ∧
    (processJob (newJob (mkJobId t_ms) clock [] gen) env t1).status = JobStatus.completed ∧
    (processJob (newJob (mkJobId t_ms) clock [] gen) env t1).total = 0 ∧
    (processJob (newJob (mkJobId t_ms) clock [] gen) env t1).completed = 0 ∧
    (processJob (newJob (mkJobId t_ms) clock [] gen) env t1).successful = 0 ∧
    (processJob (newJob (mkJobId t_ms) clock [] gen) env t1).failed = 0 ∧
    (processJob (newJob (mkJobId t_ms) clock [] gen) env t1).results = [] ∧
    (processJob (newJob (mkJobId t_ms) clock [] gen) env t1).errors = [] ∧
    (processJob (newJob (mkJobId t_ms) clock [] gen) env t1).current_url = none ∧
    (processJob (newJob (mkJobId t_ms) clock [] gen) env t1).completed_at = some t1 :=
  ⟨rfl, lookupJob_dictInsert s.jobs (mkJobId t_ms) (newJob (mkJobId t_ms) clock [] gen),
    rfl, rfl, rfl, rfl, rfl, rfl, rfl, rfl, rfl⟩

/-- C9 counterexample: at a state holding one completed job two hours old,
`cleanup_old_jobs` with `max_age = 1` removes that one record (the registry
becomes empty) but evaluates to `None`, not to the removal count 1 —
refuting the claim that the call returns the count of removed records. -/
theorem C9_return_value_counterexample :
    (cleanup_old_jobs ⟨[("job_1", sampleCompletedJob)]⟩ 7200 1).1.jobs = [] ∧
    (cleanup_old_jobs ⟨[("job_1", sampleCompletedJob)]⟩ 7200 1).2 = none ∧
    (cleanup_old_jobs ⟨[("job_1", sampleCompletedJob)]⟩ 7200 1).2 ≠ some 1 := by
  have h : shouldRemove 7200 1 sampleCompletedJob = true := by
    simp [shouldRemove, sampleCompletedJob, newJob, ageHours]
    norm_num
  refine ⟨?_, rfl, fun hc => Option.noConfusion hc⟩
  simp [cleanup_old_jobs, removeIds, h]

/-- C9 amended: `cleanup_old_jobs` does remove every completed record older
than `max_age` hours (with unique keys, the registry shrinks by exactly the
number of records scheduled for removal), but the function body has no
return statement, so the call returns `None` rather than the removed
count — the count is only printed. -/
theorem C9_cleanup_returns_none_amended (s : ProcState) (now : Int) (maxAge : Nat)
    (h : keysNodup s) :
    (cleanup_old_jobs s now maxAge).2 = none ∧
    (cleanup_old_jobs s now maxAge).1.jobs.length +
      (s.jobs.filter (fun p => shouldRemove now maxAge p.2)).length = s.jobs.length := by
  refine ⟨rfl, ?_⟩
  rw [cleanup_jobs_eq_filter s now maxAge h]
  exact length_filter_not_add s.jobs (fun p => shouldRemove now maxAge p.2)

/-- Witness for C9's amended statement at a concrete input. -/
theorem C9_cleanup_returns_none_amended_witness :
    (cleanup_old_jobs ⟨[("job_1", sampleCompletedJob)]⟩ 7200 1).2 = none ∧
    (cleanup_old_jobs ⟨[("job_1", sampleCompletedJob)]⟩ 7200 1).1.jobs.length +
      ([("job_1", sampleCompletedJob)].filter
        (fun p => shouldRemove 7200 1 p.2)).length = 1 :=
  C9_cleanup_returns_none_amended ⟨[("job_1", sampleCompletedJob)]⟩ 7200 1
    (by simp [keysNodup])
